import Mathlib

/-
Verification development for the automation-parameter core of Tone.js
(src/Tone/core/context/Param.ts).

The numeric domain is modelled by the real numbers: every value and time the
source manipulates is an IEEE double, idealised here as a real.  The unit tag
of the parameter is taken to be "number" with no unit conversion, so the
source's `_fromType` and `_toType` (Param.ts lines 163-196) are the identity
and are inlined away.  `this.toSeconds` applied to an already numeric time is
likewise the identity and is inlined.

For the error-handling claims, where JavaScript non-finite doubles matter, a
separate wrapper layer over the type `JsNum` (a real or NaN / +Infinity /
-Infinity) embeds the `assert(isFinite ...)` guards of the source; in the
source every such assert precedes every store and sink mutation of its
method, so a failing guard is embedded as `Except.error` carrying the
untouched state.
-/

set_option maxHeartbeats 1000000

/-- The automation event union of Param.ts lines 20-37: one case per
`AutomationType`.  `setTargetAtTime` additionally carries its `constant`
field; the others carry `time` and `value`. -/
inductive AutomationEvent : Type
  | setValueAtTime : ℝ → ℝ → AutomationEvent
  | linearRampToValueAtTime : ℝ → ℝ → AutomationEvent
  | exponentialRampToValueAtTime : ℝ → ℝ → AutomationEvent
  | setTargetAtTime : ℝ → ℝ → ℝ → AutomationEvent
  | cancelScheduledValues : ℝ → ℝ → AutomationEvent

namespace AutomationEvent

/-- The `time` field of an automation event (first argument of every case). -/
def time : AutomationEvent → ℝ
  | .setValueAtTime t _ => t
  | .linearRampToValueAtTime t _ => t
  | .exponentialRampToValueAtTime t _ => t
  | .setTargetAtTime t _ _ => t
  | .cancelScheduledValues t _ => t

/-- The `value` field of an automation event (second argument of every case). -/
def value : AutomationEvent → ℝ
  | .setValueAtTime _ v => v
  | .linearRampToValueAtTime _ v => v
  | .exponentialRampToValueAtTime _ v => v
  | .setTargetAtTime _ v _ => v
  | .cancelScheduledValues _ v => v

end AutomationEvent

/-- A command forwarded to the wrapped native `AudioParam` (`this._param`),
recording the sink side of each scheduling method.  Argument order follows
the source calls: value(s) first, then time (and time constant). -/
inductive SinkCall : Type
  | setValueAtTime : ℝ → ℝ → SinkCall
  | linearRampToValueAtTime : ℝ → ℝ → SinkCall
  | exponentialRampToValueAtTime : ℝ → ℝ → SinkCall
  | setTargetAtTime : ℝ → ℝ → ℝ → SinkCall
  | cancelScheduledValues : ℝ → SinkCall

namespace Timeline

/-- Modelled from the spec: `Timeline` (src/Tone/core/util/Timeline.ts) is not
under src/; spec section 4.1 gives its contract.  `add(event)` inserts
preserving time order without reordering prior events; per the data-model
invariant, an event added at an already occupied time goes after the existing
events at that time (last-write-at-time wins for exact lookups).  The capacity
bound with oldest-first eviction (spec section 3) is not modelled: no claim
concerns the capacity limit. -/
noncomputable def add (e : AutomationEvent) : List AutomationEvent → List AutomationEvent
  | [] => [e]
  | x :: xs => if x.time ≤ e.time then x :: add e xs else e :: x :: xs

/-- Modelled from the spec: `Timeline.get(time)` returns the event with the
greatest time at or before the given time, or none (spec section 4.1); on the
time-sorted event list this is the last event with `time ≤ given`. -/
noncomputable def get (t : ℝ) : List AutomationEvent → Option AutomationEvent
  | [] => none
  | x :: xs => if x.time ≤ t then some ((get t xs).getD x) else none

/-- Modelled from the spec: `Timeline.getBefore(time)` returns the event with
the greatest time strictly before the given time, or none (spec section 4.1). -/
noncomputable def getBefore (t : ℝ) : List AutomationEvent → Option AutomationEvent
  | [] => none
  | x :: xs => if x.time < t then some ((getBefore t xs).getD x) else none

/-- Modelled from the spec: `Timeline.getAfter(time)` returns the event with
the smallest time strictly after the given time, or none (spec section 4.1). -/
noncomputable def getAfter (t : ℝ) : List AutomationEvent → Option AutomationEvent
  | [] => none
  | x :: xs => if t < x.time then some x else getAfter t xs

/-- Modelled from the spec: `Timeline.cancel(time)` removes every event whose
time is at or after the given time (spec section 4.1). -/
noncomputable def cancel (t : ℝ) : List AutomationEvent → List AutomationEvent
  | [] => []
  | x :: xs => if x.time < t then x :: cancel t xs else cancel t xs

end Timeline

/-- The state of one `Param` object: its `_events` timeline, `_initialValue`,
the context's `sampleTime` (used only by `cancelAndHoldAtTime`), and the log
of commands forwarded to the wrapped native parameter `this._param`. -/
structure ParamState : Type where
  events : List AutomationEvent
  initialValue : ℝ
  sampleTime : ℝ
  sinkLog : List SinkCall

/-- A freshly constructed parameter: no events, the given initial value and
sample time, nothing yet forwarded to the sink. -/
def initState (iv sampleTime : ℝ) : ParamState :=
  { events := [], initialValue := iv, sampleTime := sampleTime, sinkLog := [] }

/-- The event list is in non-decreasing time order (the store invariant every
state built from `initState` by the scheduling operations satisfies). -/
def TimeSorted (l : List AutomationEvent) : Prop :=
  l.Pairwise fun a b => a.time ≤ b.time

namespace Param

/-- `this._minOutput` (Param.ts line 85). -/
def minOutput : ℝ := 1e-7

/-- `_exponentialApproach` (Param.ts lines 475-477):
`v1 + (v0 - v1) * exp(-(t - t0) / timeConstant)`. -/
noncomputable def exponentialApproach (t0 v0 v1 timeConstant t : ℝ) : ℝ :=
  v1 + (v0 - v1) * Real.exp (-(t - t0) / timeConstant)

/-- `_linearInterpolate` (Param.ts lines 480-482):
`v0 + (v1 - v0) * ((t - t0) / (t1 - t0))`. -/
noncomputable def linearInterpolate (t0 v0 t1 v1 t : ℝ) : ℝ :=
  v0 + (v1 - v0) * ((t - t0) / (t1 - t0))

/-- `_exponentialInterpolate` (Param.ts lines 485-487):
`v0 * (v1 / v0) ^ ((t - t0) / (t1 - t0))` (real power). -/
noncomputable def exponentialInterpolate (t0 v0 t1 v1 t : ℝ) : ℝ :=
  v0 * (v1 / v0) ^ ((t - t0) / (t1 - t0))

/-- The value recorded just prior to time t: `getBefore(t)`'s value, or
`_initialValue` when none exists (Param.ts lines 228-234 and 243-248). -/
noncomputable def priorValue (s : ParamState) (t : ℝ) : ℝ :=
  match Timeline.getBefore t s.events with
  | none => s.initialValue
  | some p => p.value

/-- The start value used when interpolating a ramp out of `before`: normally
`before.value`, but when `before` is a `setTargetAtTime` the value recorded
just prior to it (Param.ts lines 241-249). -/
noncomputable def rampStartValue (s : ParamState) : AutomationEvent → ℝ
  | .setTargetAtTime bt _ _ => priorValue s bt
  | e => e.value

/-- The if/else chain of `getValueAtTime` (Param.ts lines 225-257), as a
function of the `before = get(computedTime)` and `after =
getAfter(computedTime)` lookups. -/
noncomputable def gvBranch (s : ParamState) (ct : ℝ) :
    Option AutomationEvent → Option AutomationEvent → ℝ
  | none, _ => s.initialValue
  | some (.setTargetAtTime bt bv bc), none =>
      exponentialApproach bt (priorValue s bt) bv bc ct
  | some (.setTargetAtTime bt bv bc), some (.setValueAtTime _ _) =>
      exponentialApproach bt (priorValue s bt) bv bc ct
  | some b, none => b.value
  | some b, some (.linearRampToValueAtTime ta va) =>
      linearInterpolate b.time (rampStartValue s b) ta va ct
  | some b, some (.exponentialRampToValueAtTime ta va) =>
      exponentialInterpolate b.time (rampStartValue s b) ta va ct
  | some b, some _ => b.value

/-- `getValueAtTime` (Param.ts lines 219-259): clamp the query time to be at
least 0, look up the surrounding events and reconstruct the curve value. -/
noncomputable def getValueAtTime (s : ParamState) (time : ℝ) : ℝ :=
  gvBranch s (max time 0)
    (Timeline.get (max time 0) s.events)
    (Timeline.getAfter (max time 0) s.events)

/-- `setValueAtTime` (Param.ts lines 203-217), after its finiteness assert:
record the event and forward the identical command to the sink. -/
noncomputable def setValueAtTime (s : ParamState) (value time : ℝ) : ParamState :=
  { s with
    events := Timeline.add (.setValueAtTime time value) s.events,
    sinkLog := s.sinkLog ++ [SinkCall.setValueAtTime value time] }

/-- `linearRampToValueAtTime` (Param.ts lines 272-285), after its assert. -/
noncomputable def linearRampToValueAtTime (s : ParamState) (value endTime : ℝ) : ParamState :=
  { s with
    events := Timeline.add (.linearRampToValueAtTime endTime value) s.events,
    sinkLog := s.sinkLog ++ [SinkCall.linearRampToValueAtTime value endTime] }

/-- `exponentialRampToValueAtTime` (Param.ts lines 287-302), after its assert:
the raw value is first clamped to `Math.max(this._minOutput, numericValue)`. -/
noncomputable def exponentialRampToValueAtTime (s : ParamState) (value endTime : ℝ) : ParamState :=
  { s with
    events := Timeline.add (.exponentialRampToValueAtTime endTime (max minOutput value)) s.events,
    sinkLog := s.sinkLog ++ [SinkCall.exponentialRampToValueAtTime (max minOutput value) endTime] }

/-- `setTargetAtTime` (Param.ts lines 336-352), after its asserts. -/
noncomputable def setTargetAtTime (s : ParamState) (value startTime timeConstant : ℝ) : ParamState :=
  { s with
    events := Timeline.add (.setTargetAtTime startTime value timeConstant) s.events,
    sinkLog := s.sinkLog ++ [SinkCall.setTargetAtTime value startTime timeConstant] }

/-- `cancelScheduledValues` (Param.ts lines 367-374), after its assert. -/
noncomputable def cancelScheduledValues (s : ParamState) (time : ℝ) : ParamState :=
  { s with
    events := Timeline.cancel time s.events,
    sinkLog := s.sinkLog ++ [SinkCall.cancelScheduledValues time] }

/-- The ramp replay of `cancelAndHoldAtTime` (Param.ts lines 400-404): when
the next event is a linear or exponential ramp, re-anchor it by scheduling a
ramp of the same kind to the held value ending at the cancel time. -/
noncomputable def replayRamp (s : ParamState) (a : AutomationEvent) (v t : ℝ) : ParamState :=
  match a with
  | .linearRampToValueAtTime _ _ => linearRampToValueAtTime s v t
  | .exponentialRampToValueAtTime _ _ => exponentialRampToValueAtTime s v t
  | _ => s

/-- The event-store surgery of `cancelAndHoldAtTime` (Param.ts lines 384-405):
forward `cancelScheduledValues` to the sink, then case on whether an event
sits exactly at the cancel time and on whether any event follows it. -/
noncomputable def cancelAndHoldCore (s : ParamState) (time : ℝ) : ParamState :=
  match Timeline.get time s.events, Timeline.getAfter time s.events with
  | some b, some a =>
      if b.time = time then
        { s with
          events := Timeline.cancel a.time s.events,
          sinkLog := s.sinkLog ++ [SinkCall.cancelScheduledValues time] }
      else
        replayRamp
          { s with
            events := Timeline.cancel a.time s.events,
            sinkLog := s.sinkLog ++ [SinkCall.cancelScheduledValues time] }
          a (getValueAtTime s time) time
  | some b, none =>
      if b.time = time then
        { s with
          events := Timeline.cancel (time + s.sampleTime) s.events,
          sinkLog := s.sinkLog ++ [SinkCall.cancelScheduledValues time] }
      else
        { s with sinkLog := s.sinkLog ++ [SinkCall.cancelScheduledValues time] }
  | none, some a =>
      replayRamp
        { s with
          events := Timeline.cancel a.time s.events,
          sinkLog := s.sinkLog ++ [SinkCall.cancelScheduledValues time] }
        a (getValueAtTime s time) time
  | none, none =>
      { s with sinkLog := s.sinkLog ++ [SinkCall.cancelScheduledValues time] }

/-- `cancelAndHoldAtTime` (Param.ts lines 376-415), after its assert: compute
the value in effect at the cancel time, perform the store surgery, then record
a `setValueAtTime` event holding that value there (lines 407-413). -/
noncomputable def cancelAndHoldAtTime (s : ParamState) (time : ℝ) : ParamState :=
  setValueAtTime (cancelAndHoldCore s time) (getValueAtTime s time) time

/-- `setRampPoint` (Param.ts lines 261-270): snapshot the current value, hold
it via `cancelAndHoldAtTime`, substituting `_minOutput` when the snapshot is
exactly zero, and record it with `setValueAtTime`. -/
noncomputable def setRampPoint (s : ParamState) (time : ℝ) : ParamState :=
  setValueAtTime (cancelAndHoldAtTime s time)
    (if getValueAtTime s time = 0 then minOutput else getValueAtTime s time) time

/-- `linearRampTo` (Param.ts lines 311-316): `setRampPoint(startTime)` then a
linear ramp ending `rampTime` later. -/
noncomputable def linearRampTo (s : ParamState) (value rampTime startTime : ℝ) : ParamState :=
  linearRampToValueAtTime (setRampPoint s startTime) value (startTime + rampTime)

/-- `exponentialApproachValueAtTime` (Param.ts lines 325-334): a
`setTargetAtTime` with time constant `log(rampTime + 1) / log(200)`, a
cancel-and-hold at 90% of the ramp, and a final linear ramp to the value. -/
noncomputable def exponentialApproachValueAtTime (s : ParamState) (value time rampTime : ℝ) :
    ParamState :=
  linearRampToValueAtTime
    (cancelAndHoldAtTime
      (setTargetAtTime s value time (Real.log (rampTime + 1) / Real.log 200))
      (time + rampTime * 0.9))
    value (time + rampTime)

/-- `setValueCurveAtTime` (Param.ts lines 354-365): one `setValueAtTime` at
`startTime` with the first sample scaled, then for `i = 1 .. length - 1` a
`linearRampToValueAtTime` to `values[i] * scaling` at
`startTime + i * (duration / (length - 1))`. -/
noncomputable def setValueCurveAtTime (s : ParamState) (values : List ℝ)
    (startTime duration scaling : ℝ) : ParamState :=
  ((List.range values.length).drop 1).foldl
    (fun st i =>
      linearRampToValueAtTime st (values.getD i 0 * scaling)
        (startTime + i * (duration / ((values.length : ℝ) - 1))))
    (setValueAtTime s (values.getD 0 0 * scaling) startTime)

end Param

/-- A JavaScript double as far as finiteness is concerned: a (finite) real, or
one of the non-finite values NaN, +Infinity, -Infinity. -/
inductive JsNum : Type
  | fin : ℝ → JsNum
  | nan : JsNum
  | posInf : JsNum
  | negInf : JsNum

namespace JsNum

/-- `isFinite` of JavaScript. -/
def isFinite : JsNum → Bool
  | .fin _ => true
  | _ => false

/-- The real carried by a finite JavaScript number (0 for the non-finite
values, which the guarded operations never store). -/
def toReal : JsNum → ℝ
  | .fin x => x
  | _ => 0

/-- `Math.max` of JavaScript: NaN-propagating, with the usual order on
infinities. -/
def jsMax : JsNum → JsNum → JsNum
  | .nan, _ => .nan
  | _, .nan => .nan
  | .posInf, _ => .posInf
  | _, .posInf => .posInf
  | .negInf, b => b
  | a, .negInf => a
  | .fin a, .fin b => .fin (max a b)

end JsNum

namespace Param

/-- `setValueAtTime` (Param.ts lines 203-217) with its
`assert(isFinite(numericValue) && isFinite(computedTime))` guard: the assert
precedes the store and sink mutations, so a failing guard leaves the state
untouched. -/
noncomputable def setValueAtTimeJs (s : ParamState) (value time : JsNum) : Except ParamState ParamState :=
  if value.isFinite = true ∧ time.isFinite = true then
    .ok (setValueAtTime s value.toReal time.toReal)
  else
    .error s

/-- `linearRampToValueAtTime` (Param.ts lines 272-285) with its guard. -/
noncomputable def linearRampToValueAtTimeJs (s : ParamState) (value endTime : JsNum) :
    Except ParamState ParamState :=
  if value.isFinite = true ∧ endTime.isFinite = true then
    .ok (linearRampToValueAtTime s value.toReal endTime.toReal)
  else
    .error s

/-- `exponentialRampToValueAtTime` (Param.ts lines 287-302) with its guard.
In the source the clamp `numericValue = Math.max(this._minOutput,
numericValue)` happens before the finiteness assert, so the assert tests the
clamped value. -/
noncomputable def exponentialRampToValueAtTimeJs (s : ParamState) (value endTime : JsNum) :
    Except ParamState ParamState :=
  if (JsNum.jsMax (.fin minOutput) value).isFinite = true ∧ endTime.isFinite = true then
    .ok { s with
          events := Timeline.add
            (.exponentialRampToValueAtTime endTime.toReal
              (JsNum.jsMax (.fin minOutput) value).toReal) s.events,
          sinkLog := s.sinkLog ++ [SinkCall.exponentialRampToValueAtTime
            (JsNum.jsMax (.fin minOutput) value).toReal endTime.toReal] }
  else
    .error s

/-- `setTargetAtTime` (Param.ts lines 336-352) with both of its guards, in
source order: first `assert(isFinite(timeConstant) && timeConstant > 0)`, then
the value/time finiteness assert. -/
noncomputable def setTargetAtTimeJs (s : ParamState) (value startTime timeConstant : JsNum) :
    Except ParamState ParamState :=
  if timeConstant.isFinite = true ∧ 0 < timeConstant.toReal then
    if value.isFinite = true ∧ startTime.isFinite = true then
      .ok (setTargetAtTime s value.toReal startTime.toReal timeConstant.toReal)
    else
      .error s
  else
    .error s

/-- `cancelScheduledValues` (Param.ts lines 367-374) with its guard. -/
noncomputable def cancelScheduledValuesJs (s : ParamState) (time : JsNum) : Except ParamState ParamState :=
  if time.isFinite = true then
    .ok (cancelScheduledValues s time.toReal)
  else
    .error s

/-- `cancelAndHoldAtTime` (Param.ts lines 376-415) with its guard: the assert
(line 380) precedes every store and sink mutation of the method. -/
noncomputable def cancelAndHoldAtTimeJs (s : ParamState) (time : JsNum) :
    Except ParamState ParamState :=
  if time.isFinite = true then
    .ok (cancelAndHoldAtTime s time.toReal)
  else
    .error s

end Param

/-
Lemmas about the timeline store on time-sorted event lists.
-/

namespace Timeline

theorem mem_add {e a : AutomationEvent} {l : List AutomationEvent} :
    a ∈ add e l ↔ a = e ∨ a ∈ l := by
  induction l with
  | nil => simp [add]
  | cons x xs ih =>
      simp only [add]
      split
      · simp only [List.mem_cons, ih]
        tauto
      · simp [List.mem_cons]

theorem add_of_le {e : AutomationEvent} {l : List AutomationEvent}
    (h : ∀ x ∈ l, x.time ≤ e.time) : add e l = l ++ [e] := by
  induction l with
  | nil => simp [add]
  | cons x xs ih =>
      simp only [add, List.cons_append]
      rw [if_pos (h x (by simp)), ih (fun y hy => h y (by simp [hy]))]

theorem mem_cancel {t : ℝ} {a : AutomationEvent} {l : List AutomationEvent} :
    a ∈ cancel t l ↔ a ∈ l ∧ a.time < t := by
  induction l with
  | nil => simp [cancel]
  | cons x xs ih =>
      simp only [cancel]
      split
      · next hx =>
          simp only [List.mem_cons, ih]
          constructor
          · rintro (rfl | ⟨h1, h2⟩)
            · exact ⟨Or.inl rfl, hx⟩
            · exact ⟨Or.inr h1, h2⟩
          · rintro ⟨rfl | h1, h2⟩
            · exact Or.inl rfl
            · exact Or.inr ⟨h1, h2⟩
      · next hx =>
          simp only [List.mem_cons, ih]
          constructor
          · rintro ⟨h1, h2⟩
            exact ⟨Or.inr h1, h2⟩
          · rintro ⟨rfl | h1, h2⟩
            · exact absurd h2 hx
            · exact ⟨h1, h2⟩

theorem cancel_of_lt {t : ℝ} {l : List AutomationEvent}
    (h : ∀ x ∈ l, x.time < t) : cancel t l = l := by
  induction l with
  | nil => rfl
  | cons x xs ih =>
      simp only [cancel]
      rw [if_pos (h x (by simp)), ih (fun y hy => h y (by simp [hy]))]

theorem getAfter_none_of_le {t : ℝ} {l : List AutomationEvent}
    (h : ∀ x ∈ l, x.time ≤ t) : getAfter t l = none := by
  induction l with
  | nil => rfl
  | cons x xs ih =>
      simp only [getAfter]
      rw [if_neg (not_lt.mpr (h x (by simp)))]
      exact ih (fun y hy => h y (by simp [hy]))

theorem le_of_getAfter_none {t : ℝ} :
    ∀ {l : List AutomationEvent}, getAfter t l = none → ∀ x ∈ l, x.time ≤ t := by
  intro l
  induction l with
  | nil => intro _ x hx; simp at hx
  | cons x xs ih =>
      intro h y hy
      simp only [getAfter] at h
      by_cases hx : t < x.time
      · rw [if_pos hx] at h
        exact absurd h (by simp)
      · rw [if_neg hx] at h
        rcases List.mem_cons.mp hy with rfl | hy'
        · exact not_lt.mp hx
        · exact ih h y hy'

theorem getAfter_some {t : ℝ} {a : AutomationEvent} :
    ∀ {l : List AutomationEvent}, getAfter t l = some a → a ∈ l ∧ t < a.time := by
  intro l
  induction l with
  | nil => intro h; simp [getAfter] at h
  | cons x xs ih =>
      intro h
      simp only [getAfter] at h
      by_cases hx : t < x.time
      · rw [if_pos hx] at h
        injection h with h
        subst h
        exact ⟨by simp, hx⟩
      · rw [if_neg hx] at h
        obtain ⟨h1, h2⟩ := ih h
        exact ⟨List.mem_cons_of_mem x h1, h2⟩

theorem getAfter_first {t : ℝ} {a : AutomationEvent} :
    ∀ {l : List AutomationEvent}, TimeSorted l → getAfter t l = some a →
      ∀ x ∈ l, t < x.time → a.time ≤ x.time := by
  intro l
  induction l with
  | nil => intro _ h; simp [getAfter] at h
  | cons x xs ih =>
      intro hs h y hy hty
      rw [TimeSorted, List.pairwise_cons] at hs
      obtain ⟨hx1, hx2⟩ := hs
      simp only [getAfter] at h
      by_cases hx : t < x.time
      · rw [if_pos hx] at h
        injection h with h
        subst h
        rcases List.mem_cons.mp hy with rfl | hy'
        · exact le_refl _
        · exact hx1 y hy'
      · rw [if_neg hx] at h
        rcases List.mem_cons.mp hy with rfl | hy'
        · exact absurd hty hx
        · exact ih hx2 h y hy' hty

theorem get_append_last {t : ℝ} {e : AutomationEvent} (he : e.time ≤ t) :
    ∀ {l : List AutomationEvent}, (∀ x ∈ l, x.time ≤ t) → get t (l ++ [e]) = some e := by
  intro l
  induction l with
  | nil =>
      intro _
      simp [get, he]
  | cons x xs ih =>
      intro h
      simp only [List.cons_append, get, List.append_eq]
      rw [if_pos (h x (by simp)), ih (fun y hy => h y (by simp [hy]))]
      simp

end Timeline

theorem TimeSorted.append_singleton {l : List AutomationEvent} {e : AutomationEvent}
    (hs : TimeSorted l) (h : ∀ x ∈ l, x.time ≤ e.time) : TimeSorted (l ++ [e]) := by
  rw [TimeSorted, List.pairwise_append]
  refine ⟨hs, List.pairwise_singleton _ _, fun a ha b hb => ?_⟩
  simp only [List.mem_singleton] at hb
  subst hb
  exact h a ha

namespace Param

/-- When the event list is a block of events at or before `te` followed by a
final `setValueAtTime` at `te`, and `te` is at or before the (clamped) query
time, the query returns the held value. -/
theorem getValueAtTime_hold (s' : ParamState) (l : List AutomationEvent) (te v tq : ℝ)
    (hev : s'.events = l ++ [.setValueAtTime te v])
    (hl : ∀ x ∈ l, x.time ≤ te) (hte : te ≤ max tq 0) :
    getValueAtTime s' tq = v := by
  have hl' : ∀ x ∈ l, x.time ≤ max tq 0 := fun x hx => le_trans (hl x hx) hte
  have h1 : Timeline.get (max tq 0) (l ++ [.setValueAtTime te v])
      = some (.setValueAtTime te v) :=
    Timeline.get_append_last (by simpa [AutomationEvent.time] using hte) hl'
  have h2 : Timeline.getAfter (max tq 0) (l ++ [.setValueAtTime te v]) = none := by
    apply Timeline.getAfter_none_of_le
    intro x hx
    rcases List.mem_append.mp hx with h | h
    · exact hl' x h
    · simp only [List.mem_singleton] at h
      subst h
      simpa [AutomationEvent.time] using hte
  rw [getValueAtTime, hev, h1, h2]
  simp [gvBranch, AutomationEvent.value]

/-- The ramp replay of `cancelAndHoldAtTime` only ever adds events at the
cancel time itself. -/
theorem replayRamp_times {s' : ParamState} {a : AutomationEvent} {v t : ℝ}
    (h : ∀ x ∈ s'.events, x.time ≤ t) :
    ∀ x ∈ (replayRamp s' a v t).events, x.time ≤ t := by
  intro x hx
  cases a <;>
    simp only [replayRamp, linearRampToValueAtTime, exponentialRampToValueAtTime] at hx
  case setValueAtTime => exact h x hx
  case setTargetAtTime => exact h x hx
  case cancelScheduledValues => exact h x hx
  case linearRampToValueAtTime =>
      rcases Timeline.mem_add.mp hx with rfl | hx'
      · simp [AutomationEvent.time]
      · exact h x hx'
  case exponentialRampToValueAtTime =>
      rcases Timeline.mem_add.mp hx with rfl | hx'
      · simp [AutomationEvent.time]
      · exact h x hx'

/-- After the store surgery of `cancelAndHoldAtTime`, every surviving event is
at or before the cancel time. -/
theorem cancelAndHoldCore_times {s : ParamState} {t : ℝ} (hs : TimeSorted s.events) :
    ∀ x ∈ (cancelAndHoldCore s t).events, x.time ≤ t := by
  have cancelLe : ∀ {a : AutomationEvent},
      Timeline.getAfter t s.events = some a →
      ∀ y ∈ Timeline.cancel (AutomationEvent.time a) s.events, y.time ≤ t := by
    intro a ha y hy
    obtain ⟨hy1, hy2⟩ := Timeline.mem_cancel.mp hy
    by_contra hc
    push_neg at hc
    exact absurd hy2 (not_lt.mpr (Timeline.getAfter_first hs ha y hy1 hc))
  intro x hx
  unfold cancelAndHoldCore at hx
  split at hx
  case h_1 b a hb ha =>
      split at hx
      · exact cancelLe ha x hx
      · exact replayRamp_times (fun y hy => cancelLe ha y hy) x hx
  case h_2 b hb ha =>
      split at hx
      · have := Timeline.mem_cancel.mp hx
        exact Timeline.le_of_getAfter_none ha x this.1
      · exact Timeline.le_of_getAfter_none ha x hx
  case h_3 a hb ha =>
      exact replayRamp_times (fun y hy => cancelLe ha y hy) x hx
  case h_4 hb ha =>
      exact Timeline.le_of_getAfter_none ha x hx

/-- The final store of `cancelAndHoldAtTime`: the surgered store followed by
the newly recorded holding `setValueAtTime`. -/
theorem cancelAndHold_shape (s : ParamState) (t : ℝ) (hs : TimeSorted s.events) :
    (cancelAndHoldAtTime s t).events
      = (cancelAndHoldCore s t).events ++ [.setValueAtTime t (getValueAtTime s t)] := by
  simp only [cancelAndHoldAtTime, setValueAtTime]
  exact Timeline.add_of_le (by
    intro x hx
    simpa [AutomationEvent.time] using cancelAndHoldCore_times hs x hx)

end Param

/-
Claim theorems.
-/

/-- C3: on a time-sorted schedule, `cancelAndHoldAtTime(t)` leaves
`getValueAtTime(t)` unchanged — the value queried at t after the call equals
the value queried immediately before — and afterwards no event with time
strictly greater than t remains in the store. -/
theorem C3_cancelAndHold_preserves_value (s : ParamState) (t : ℝ)
    (hs : TimeSorted s.events)
    (e : AutomationEvent) (he : e ∈ (Param.cancelAndHoldAtTime s t).events) :
    Param.getValueAtTime (Param.cancelAndHoldAtTime s t) t = Param.getValueAtTime s t
    ∧ e.time ≤ t := by
  have hshape := Param.cancelAndHold_shape s t hs
  constructor
  · exact Param.getValueAtTime_hold _ _ t (Param.getValueAtTime s t) t hshape
      (Param.cancelAndHoldCore_times hs) (le_max_left t 0)
  · rw [hshape] at he
    rcases List.mem_append.mp he with h | h
    · exact Param.cancelAndHoldCore_times hs e h
    · simp only [List.mem_singleton] at h
      subst h
      simp [AutomationEvent.time]

theorem C3_witness :
    Param.getValueAtTime (Param.cancelAndHoldAtTime (initState 0 1) 1) 1
        = Param.getValueAtTime (initState 0 1) 1
    ∧ (AutomationEvent.setValueAtTime 1 0).time ≤ 1 :=
  C3_cancelAndHold_preserves_value (initState 0 1) 1 (by simp [TimeSorted, initState])
    (.setValueAtTime 1 0)
    (by norm_num [Param.cancelAndHoldAtTime, Param.cancelAndHoldCore, Param.setValueAtTime,
          Param.getValueAtTime, Param.gvBranch, Timeline.get, Timeline.getAfter, Timeline.add,
          initState])

/-- C10 (amended): `getValueAtTime` returns `initialValue` whenever the store
is empty (any query time), and whenever the query time is non-negative and
strictly before the earliest recorded event.  The amendment restricts the
second part to non-negative query times: the source clamps the query time to
`max(time, 0)` first, so a negative query with an event at time 0 returns that
event's reconstruction, not `initialValue` (see the counterexample). -/
theorem C10_before_first_event (s s2 : ParamState) (t t2 : ℝ) (e : AutomationEvent)
    (rest : List AutomationEvent) (h1 : s.events = [])
    (h2 : s2.events = e :: rest) (ht2 : 0 ≤ t2) (hlt : t2 < e.time) :
    Param.getValueAtTime s t = s.initialValue
    ∧ Param.getValueAtTime s2 t2 = s2.initialValue := by
  constructor
  · rw [Param.getValueAtTime, h1]
    simp [Timeline.get, Timeline.getAfter, Param.gvBranch]
  · rw [Param.getValueAtTime, h2, max_eq_left ht2]
    rw [Timeline.get, if_neg (not_le.mpr hlt)]
    simp [Param.gvBranch]

theorem C10_witness :
    Param.getValueAtTime (initState 7 1) 3 = (initState 7 1).initialValue
    ∧ Param.getValueAtTime (Param.setValueAtTime (initState 7 1) 5 1) (1 / 2)
        = (Param.setValueAtTime (initState 7 1) 5 1).initialValue :=
  C10_before_first_event (initState 7 1) (Param.setValueAtTime (initState 7 1) 5 1)
    3 (1 / 2) (.setValueAtTime 1 5) [] rfl
    (by simp [Param.setValueAtTime, Timeline.add, initState])
    (by norm_num)
    (by norm_num [AutomationEvent.time])

/-- C10 counterexample: with `initialValue = 0` and a single `setValueAtTime(5, 0)`
event, the query time -1 is strictly before the earliest event's time 0, yet
`getValueAtTime(-1)` returns 5 (the query is clamped to 0), not the initial
value — refuting the claim for every query time strictly before the first
event. -/
theorem C10_counterexample :
    (Param.setValueAtTime (initState 0 1) 5 0).events = [.setValueAtTime 0 5]
    ∧ (-1 : ℝ) < (AutomationEvent.setValueAtTime 0 5).time
    ∧ Param.getValueAtTime (Param.setValueAtTime (initState 0 1) 5 0) (-1) = 5
    ∧ Param.getValueAtTime (Param.setValueAtTime (initState 0 1) 5 0) (-1)
        ≠ (Param.setValueAtTime (initState 0 1) 5 0).initialValue := by
  refine ⟨?_, ?_, ?_, ?_⟩ <;>
    norm_num [Param.setValueAtTime, Param.getValueAtTime, Param.gvBranch,
      Timeline.add, Timeline.get, Timeline.getAfter, initState,
      AutomationEvent.time, AutomationEvent.value, max_def]

/-
Evaluation lemmas for small concrete stores, used to discharge the scenario
claims symbolically.
-/

namespace Timeline

theorem get_single {t : ℝ} {e : AutomationEvent} (h : e.time ≤ t) :
    get t [e] = some e := by
  simp [get, h]

theorem get_pair_first {t : ℝ} {e1 e2 : AutomationEvent}
    (h1 : e1.time ≤ t) (h2 : ¬ e2.time ≤ t) : get t [e1, e2] = some e1 := by
  simp [get, h1, h2]

theorem get_pair_second {t : ℝ} {e1 e2 : AutomationEvent}
    (h1 : e1.time ≤ t) (h2 : e2.time ≤ t) : get t [e1, e2] = some e2 := by
  simp [get, h1, h2]

theorem getAfter_single_none {t : ℝ} {e : AutomationEvent} (h : ¬ t < e.time) :
    getAfter t [e] = none := by
  simp [getAfter, h]

theorem getAfter_pair_second {t : ℝ} {e1 e2 : AutomationEvent}
    (h1 : ¬ t < e1.time) (h2 : t < e2.time) : getAfter t [e1, e2] = some e2 := by
  simp [getAfter, h1, h2]

theorem getAfter_pair_none {t : ℝ} {e1 e2 : AutomationEvent}
    (h1 : ¬ t < e1.time) (h2 : ¬ t < e2.time) : getAfter t [e1, e2] = none := by
  simp [getAfter, h1, h2]

theorem getBefore_cons_none {t : ℝ} {e : AutomationEvent} {rest : List AutomationEvent}
    (h : ¬ e.time < t) : getBefore t (e :: rest) = none := by
  simp [getBefore, h]

theorem getBefore_pair_first {t : ℝ} {e1 e2 : AutomationEvent}
    (h1 : e1.time < t) (h2 : ¬ e2.time < t) : getBefore t [e1, e2] = some e1 := by
  simp [getBefore, h1, h2]

end Timeline

/-- C1: after `setValueAtTime(v0, t0)` then `linearRampToValueAtTime(v1, t1)`
with `0 ≤ t0 < t1` on a parameter without unit conversion, `getValueAtTime`
equals the linear interpolation `v0 + (v1 - v0) * (t - t0) / (t1 - t0)` at
every time in `[t0, t1]`, and equals `v1` at every time after `t1`. -/
theorem C1_linear_ramp (iv stt v0 v1 t0 t1 ta tb : ℝ) (ht0 : 0 ≤ t0) (h01 : t0 < t1)
    (hta1 : t0 ≤ ta) (hta2 : ta ≤ t1) (htb : t1 < tb) :
    Param.getValueAtTime
        (Param.linearRampToValueAtTime (Param.setValueAtTime (initState iv stt) v0 t0) v1 t1) ta
      = v0 + (v1 - v0) * (ta - t0) / (t1 - t0)
    ∧ Param.getValueAtTime
        (Param.linearRampToValueAtTime (Param.setValueAtTime (initState iv stt) v0 t0) v1 t1) tb
      = v1 := by
  have hev : (Param.linearRampToValueAtTime
        (Param.setValueAtTime (initState iv stt) v0 t0) v1 t1).events
      = [.setValueAtTime t0 v0, .linearRampToValueAtTime t1 v1] := by
    simp [Param.linearRampToValueAtTime, Param.setValueAtTime, initState,
      Timeline.add, AutomationEvent.time, h01.le]
  constructor
  · have hta0 : 0 ≤ ta := le_trans ht0 hta1
    rw [Param.getValueAtTime, hev, max_eq_left hta0]
    rcases eq_or_lt_of_le hta2 with rfl | hlt
    · rw [Timeline.get_pair_second (by simpa [AutomationEvent.time] using hta1)
          (by simp [AutomationEvent.time]),
        Timeline.getAfter_pair_none (by simpa [AutomationEvent.time] using not_lt.mpr hta1)
          (by simp [AutomationEvent.time])]
      simp only [Param.gvBranch, AutomationEvent.value]
      rw [mul_div_assoc, div_self (sub_ne_zero.mpr (ne_of_gt h01))]
      ring
    · rw [Timeline.get_pair_first (by simpa [AutomationEvent.time] using hta1)
          (by simpa [AutomationEvent.time] using not_le.mpr hlt),
        Timeline.getAfter_pair_second (by simpa [AutomationEvent.time] using not_lt.mpr hta1)
          (by simpa [AutomationEvent.time] using hlt)]
      simp only [Param.gvBranch, Param.rampStartValue, Param.linearInterpolate,
        AutomationEvent.time, AutomationEvent.value]
      ring
  · have htb0 : 0 ≤ tb := le_trans ht0 (le_trans h01.le htb.le)
    rw [Param.getValueAtTime, hev, max_eq_left htb0]
    rw [Timeline.get_pair_second
        (by simpa [AutomationEvent.time] using le_trans hta1 (le_trans hta2 htb.le))
        (by simpa [AutomationEvent.time] using htb.le),
      Timeline.getAfter_pair_none
        (by simpa [AutomationEvent.time] using not_lt.mpr (le_trans h01.le htb.le))
        (by simpa [AutomationEvent.time] using not_lt.mpr htb.le)]
    simp [Param.gvBranch, AutomationEvent.value]

theorem C1_witness :
    Param.getValueAtTime
        (Param.linearRampToValueAtTime (Param.setValueAtTime (initState 0 1) 0 0) 1 1) (1 / 2)
      = 1 / 2
    ∧ Param.getValueAtTime
        (Param.linearRampToValueAtTime (Param.setValueAtTime (initState 0 1) 0 0) 1 1) 1 = 1
    ∧ Param.getValueAtTime
        (Param.linearRampToValueAtTime (Param.setValueAtTime (initState 0 1) 0 0) 1 1) 2 = 1 := by
  obtain ⟨hmid, hend⟩ := C1_linear_ramp 0 1 0 1 0 1 (1 / 2) 2
    (by norm_num) (by norm_num) (by norm_num) (by norm_num) (by norm_num)
  obtain ⟨hone, _⟩ := C1_linear_ramp 0 1 0 1 0 1 1 2
    (by norm_num) (by norm_num) (by norm_num) (by norm_num) (by norm_num)
  refine ⟨?_, ?_, hend⟩
  · rw [hmid]; norm_num
  · rw [hone]; norm_num

/-- C2: while a `setTargetAtTime(v1, t0, tau)` event is the one in effect and
the next event, if any, is a `setValueAtTime`, `getValueAtTime(t)` equals
`v1 + (v0 - v1) * exp(-(t - t0) / tau)` where `v0` is the value of the event
recorded just before `t0` — or `initialValue` when none exists.  The three
conjuncts cover a lone target approach, one preceded by a `setValueAtTime`,
and one followed by a `setValueAtTime`. -/
theorem C2_target_approach (iv stt : ℝ)
    (v1a t0a taua ta : ℝ) (h1 : 0 ≤ t0a) (h2 : t0a ≤ ta)
    (v0 v1b t0b taub tprev tb : ℝ) (h3 : 0 ≤ tprev) (h4 : tprev < t0b) (h5 : t0b ≤ tb)
    (v1c v2 t0c tauc t2 tc : ℝ) (h6 : 0 ≤ t0c) (h7 : t0c ≤ tc) (h8 : tc < t2) :
    Param.getValueAtTime (Param.setTargetAtTime (initState iv stt) v1a t0a taua) ta
      = v1a + (iv - v1a) * Real.exp (-(ta - t0a) / taua)
    ∧ Param.getValueAtTime
        (Param.setTargetAtTime (Param.setValueAtTime (initState iv stt) v0 tprev) v1b t0b taub) tb
      = v1b + (v0 - v1b) * Real.exp (-(tb - t0b) / taub)
    ∧ Param.getValueAtTime
        (Param.setValueAtTime (Param.setTargetAtTime (initState iv stt) v1c t0c tauc) v2 t2) tc
      = v1c + (iv - v1c) * Real.exp (-(tc - t0c) / tauc) := by
  refine ⟨?_, ?_, ?_⟩
  · have hev : (Param.setTargetAtTime (initState iv stt) v1a t0a taua).events
        = [.setTargetAtTime t0a v1a taua] := by
      simp [Param.setTargetAtTime, initState, Timeline.add]
    have hprior : Param.priorValue (Param.setTargetAtTime (initState iv stt) v1a t0a taua) t0a
        = iv := by
      simp only [Param.priorValue, hev]
      rw [Timeline.getBefore_cons_none (by simp [AutomationEvent.time])]
      simp [Param.setTargetAtTime, initState]
    rw [Param.getValueAtTime, hev, max_eq_left (le_trans h1 h2)]
    rw [Timeline.get_single (by simpa [AutomationEvent.time] using h2),
      Timeline.getAfter_single_none (by simpa [AutomationEvent.time] using not_lt.mpr h2)]
    simp only [Param.gvBranch, hprior, Param.exponentialApproach]
  · have hev : (Param.setTargetAtTime
          (Param.setValueAtTime (initState iv stt) v0 tprev) v1b t0b taub).events
        = [.setValueAtTime tprev v0, .setTargetAtTime t0b v1b taub] := by
      simp [Param.setTargetAtTime, Param.setValueAtTime, initState, Timeline.add,
        AutomationEvent.time, h4.le]
    have hprior : Param.priorValue (Param.setTargetAtTime
          (Param.setValueAtTime (initState iv stt) v0 tprev) v1b t0b taub) t0b = v0 := by
      simp only [Param.priorValue, hev]
      rw [Timeline.getBefore_pair_first (by simpa [AutomationEvent.time] using h4)
        (by simp [AutomationEvent.time])]
      simp [AutomationEvent.value]
    have htb0 : 0 ≤ tb := le_trans h3 (le_trans h4.le h5)
    rw [Param.getValueAtTime, hev, max_eq_left htb0]
    rw [Timeline.get_pair_second
        (by simpa [AutomationEvent.time] using le_trans h4.le h5)
        (by simpa [AutomationEvent.time] using h5),
      Timeline.getAfter_pair_none
        (by simpa [AutomationEvent.time] using not_lt.mpr (le_trans h4.le h5))
        (by simpa [AutomationEvent.time] using not_lt.mpr h5)]
    simp only [Param.gvBranch, hprior, Param.exponentialApproach]
  · have hev : (Param.setValueAtTime
          (Param.setTargetAtTime (initState iv stt) v1c t0c tauc) v2 t2).events
        = [.setTargetAtTime t0c v1c tauc, .setValueAtTime t2 v2] := by
      simp [Param.setTargetAtTime, Param.setValueAtTime, initState, Timeline.add,
        AutomationEvent.time, (le_trans h7 h8.le)]
    have hprior : Param.priorValue (Param.setValueAtTime
          (Param.setTargetAtTime (initState iv stt) v1c t0c tauc) v2 t2) t0c = iv := by
      simp only [Param.priorValue, hev]
      rw [Timeline.getBefore_cons_none (by simp [AutomationEvent.time])]
      simp [Param.setTargetAtTime, Param.setValueAtTime, initState]
    rw [Param.getValueAtTime, hev, max_eq_left (le_trans h6 h7)]
    rw [Timeline.get_pair_first (by simpa [AutomationEvent.time] using h7)
        (by simpa [AutomationEvent.time] using not_le.mpr h8),
      Timeline.getAfter_pair_second
        (by simpa [AutomationEvent.time] using not_lt.mpr h7)
        (by simpa [AutomationEvent.time] using h8)]
    simp only [Param.gvBranch, hprior, Param.exponentialApproach]

theorem C2_witness :
    Param.getValueAtTime (Param.setTargetAtTime (initState 0 1) 1 0 (1 / 10)) (1 / 10)
      = 1 + (0 - 1) * Real.exp (-(1 / 10 - 0) / (1 / 10))
    ∧ Param.getValueAtTime
        (Param.setTargetAtTime (Param.setValueAtTime (initState 0 1) 5 1) 7 2 (1 / 10)) 3
      = 7 + (5 - 7) * Real.exp (-(3 - 2) / (1 / 10))
    ∧ Param.getValueAtTime
        (Param.setValueAtTime (Param.setTargetAtTime (initState 0 1) 1 0 (1 / 10)) 9 4) 2
      = 1 + (0 - 1) * Real.exp (-(2 - 0) / (1 / 10)) :=
  C2_target_approach 0 1 1 0 (1 / 10) (1 / 10) (by norm_num) (by norm_num)
    5 7 2 (1 / 10) 1 3 (by norm_num) (by norm_num) (by norm_num)
    1 9 0 (1 / 10) 4 2 (by norm_num) (by norm_num) (by norm_num)

theorem Timeline.cancel_eq_filter_le {c t : ℝ} {l : List AutomationEvent}
    (hiff : ∀ x ∈ l, x.time < c ↔ x.time ≤ t) :
    Timeline.cancel c l = l.filter fun x => decide (x.time ≤ t) := by
  induction l with
  | nil => rfl
  | cons x xs ih =>
      simp only [Timeline.cancel, List.filter_cons]
      by_cases hx : x.time ≤ t
      · rw [if_pos ((hiff x (by simp)).mpr hx), ih (fun y hy => hiff y (by simp [hy]))]
        simp [hx]
      · rw [if_neg (fun hc => hx ((hiff x (by simp)).mp hc)),
          ih (fun y hy => hiff y (by simp [hy]))]
        simp [hx]

/-- C4 counterexample: with events `setValueAtTime(0, 0)` and
`linearRampToValueAtTime(4, 1)`, calling `cancelAndHoldAtTime(1)` — an event
sits exactly at time 1 — does not remove the event at time 1: the store
afterwards still contains the `linearRampToValueAtTime` event at time 1 (a
non-`setValueAtTime` event at a time ≥ 1), alongside the newly recorded
`setValueAtTime`.  This refutes the claim that the event at exactly `t` is
removed and that the only event at or after `t` is the new `setValueAtTime`. -/
theorem C4_counterexample :
    (Param.cancelAndHoldAtTime
        (Param.linearRampToValueAtTime (Param.setValueAtTime (initState 0 1) 0 0) 4 1) 1).events
      = [.setValueAtTime 0 0, .linearRampToValueAtTime 1 4, .setValueAtTime 1 4]
    ∧ AutomationEvent.linearRampToValueAtTime 1 4
        ∈ (Param.cancelAndHoldAtTime
            (Param.linearRampToValueAtTime (Param.setValueAtTime (initState 0 1) 0 0) 4 1) 1).events
    ∧ (AutomationEvent.linearRampToValueAtTime 1 4).time = 1 := by
  have hev : (Param.cancelAndHoldAtTime
        (Param.linearRampToValueAtTime (Param.setValueAtTime (initState 0 1) 0 0) 4 1) 1).events
      = [.setValueAtTime 0 0, .linearRampToValueAtTime 1 4, .setValueAtTime 1 4] := by
    norm_num [Param.cancelAndHoldAtTime, Param.cancelAndHoldCore, Param.setValueAtTime,
      Param.linearRampToValueAtTime, Param.getValueAtTime, Param.gvBranch, Param.replayRamp,
      initState, Timeline.add, Timeline.get, Timeline.getAfter, Timeline.cancel,
      AutomationEvent.time, AutomationEvent.value, max_def]
  refine ⟨hev, ?_, by simp [AutomationEvent.time]⟩
  rw [hev]
  simp

/-- C4 (amended): when an event is recorded at exactly time t on a time-sorted
schedule (and the sample time is positive), `cancelAndHoldAtTime(t)` removes
every event with time strictly greater than t, keeps every event with time at
most t — including the event sitting exactly at t, which is not removed — and
appends a new `setValueAtTime` at t holding the reconstructed value, after the
kept events, so that exact-time lookups return the new event. -/
theorem C4_cancelAndHold_exact_event (s : ParamState) (t : ℝ) (b : AutomationEvent)
    (hs : TimeSorted s.events) (hst : 0 < s.sampleTime)
    (hb : Timeline.get t s.events = some b) (hbt : b.time = t) :
    (Param.cancelAndHoldAtTime s t).events
      = (s.events.filter fun e => decide (e.time ≤ t))
        ++ [.setValueAtTime t (Param.getValueAtTime s t)] := by
  rw [Param.cancelAndHold_shape s t hs]
  congr 1
  unfold Param.cancelAndHoldCore
  split
  next b' a' hb' ha' =>
      rw [hb] at hb'
      injection hb' with hb'
      subst hb'
      rw [if_pos hbt]
      show Timeline.cancel (AutomationEvent.time a') s.events = _
      apply Timeline.cancel_eq_filter_le
      intro x hx
      constructor
      · intro hlt
        by_contra hc
        push_neg at hc
        exact absurd hlt (not_lt.mpr (Timeline.getAfter_first hs ha' x hx hc))
      · intro hle
        exact lt_of_le_of_lt hle (Timeline.getAfter_some ha').2
  next b' hb' ha' =>
      rw [hb] at hb'
      injection hb' with hb'
      subst hb'
      rw [if_pos hbt]
      have hle := Timeline.le_of_getAfter_none ha'
      show Timeline.cancel (t + s.sampleTime) s.events = _
      rw [Timeline.cancel_of_lt (fun x hx => lt_of_le_of_lt (hle x hx) (by linarith))]
      symm
      exact List.filter_eq_self.mpr (fun a ha => by simp [hle a ha])
  next a' hb' ha' =>
      rw [hb] at hb'
      exact absurd hb' (by simp)
  next hb' ha' =>
      rw [hb] at hb'
      exact absurd hb' (by simp)

theorem C4_witness :
    (Param.cancelAndHoldAtTime (Param.setValueAtTime (initState 0 1) 5 1) 1).events
      = ((Param.setValueAtTime (initState 0 1) 5 1).events.filter fun e => decide (e.time ≤ 1))
        ++ [.setValueAtTime 1
              (Param.getValueAtTime (Param.setValueAtTime (initState 0 1) 5 1) 1)] :=
  C4_cancelAndHold_exact_event (Param.setValueAtTime (initState 0 1) 5 1) 1
    (.setValueAtTime 1 5)
    (by simp [Param.setValueAtTime, initState, Timeline.add, TimeSorted])
    (by simp [Param.setValueAtTime, initState])
    (by norm_num [Param.setValueAtTime, initState, Timeline.add, Timeline.get,
          AutomationEvent.time])
    (by simp [AutomationEvent.time])

/-- C5 counterexample: `linearRampTo(1, 1, 0)` on a parameter whose value at
time 0 is exactly zero.  The ramp about to follow is linear, yet the ramp
start point recorded by `setRampPoint` holds `_minOutput` (1e-7), not zero:
the substitution in `setRampPoint` is unconditional, so the reconstructed
value at time 0 is 1e-7.  This refutes the claim that the substitution happens
only when the subsequent ramp is exponential. -/
theorem C5_counterexample :
    (Param.linearRampTo (initState 0 1) 1 1 0).events
      = [.setValueAtTime 0 0, .setValueAtTime 0 Param.minOutput,
          .linearRampToValueAtTime 1 1]
    ∧ Param.getValueAtTime (Param.linearRampTo (initState 0 1) 1 1 0) 0 = Param.minOutput
    ∧ Param.minOutput ≠ 0 := by
  have hev : (Param.linearRampTo (initState 0 1) 1 1 0).events
      = [.setValueAtTime 0 0, .setValueAtTime 0 Param.minOutput,
          .linearRampToValueAtTime 1 1] := by
    norm_num [Param.linearRampTo, Param.setRampPoint, Param.cancelAndHoldAtTime,
      Param.cancelAndHoldCore, Param.setValueAtTime, Param.linearRampToValueAtTime,
      Param.getValueAtTime, Param.gvBranch, initState, Timeline.add, Timeline.get,
      Timeline.getAfter, AutomationEvent.time, AutomationEvent.value, max_def]
  refine ⟨hev, ?_, by norm_num [Param.minOutput]⟩
  rw [Param.getValueAtTime, hev]
  rw [show max (0 : ℝ) 0 = 0 by norm_num]
  rw [show Timeline.get 0 [AutomationEvent.setValueAtTime 0 0,
        .setValueAtTime 0 Param.minOutput, .linearRampToValueAtTime 1 1]
      = some (.setValueAtTime 0 Param.minOutput) by
    norm_num [Timeline.get, AutomationEvent.time]]
  rw [show Timeline.getAfter 0 [AutomationEvent.setValueAtTime 0 0,
        .setValueAtTime 0 Param.minOutput, .linearRampToValueAtTime 1 1]
      = some (.linearRampToValueAtTime 1 1) by
    norm_num [Timeline.getAfter, AutomationEvent.time]]
  simp only [Param.gvBranch, Param.rampStartValue, Param.linearInterpolate,
    AutomationEvent.time, AutomationEvent.value]
  norm_num

/-- C5 (amended): `setRampPoint(time)` computes the value at `time`, calls
`cancelAndHoldAtTime(time)`, and then records a `setValueAtTime` at `time`
holding that value with `_minOutput` (1e-7) substituted whenever the value is
exactly zero — unconditionally, regardless of the kind of ramp about to
follow (also when the subsequent ramp is linear). -/
theorem C5_setRampPoint_substitutes (s : ParamState) (t : ℝ) (hs : TimeSorted s.events) :
    (Param.setRampPoint s t).events
      = (Param.cancelAndHoldAtTime s t).events
        ++ [.setValueAtTime t
              (if Param.getValueAtTime s t = 0 then Param.minOutput
               else Param.getValueAtTime s t)] := by
  apply Timeline.add_of_le
  intro x hx
  rw [Param.cancelAndHold_shape s t hs] at hx
  rcases List.mem_append.mp hx with h | h
  · simpa [AutomationEvent.time] using Param.cancelAndHoldCore_times hs x h
  · simp only [List.mem_singleton] at h
    subst h
    simp [AutomationEvent.time]

theorem C5_witness :
    (Param.setRampPoint (initState 0 1) 0).events
      = (Param.cancelAndHoldAtTime (initState 0 1) 0).events
        ++ [.setValueAtTime 0
              (if Param.getValueAtTime (initState 0 1) 0 = 0 then Param.minOutput
               else Param.getValueAtTime (initState 0 1) 0)] :=
  C5_setRampPoint_substitutes (initState 0 1) 0 (by simp [initState, TimeSorted])

/-- C6: the raw value stored by `exponentialRampToValueAtTime(value, endTime)`
is `max(_minOutput, value)`: every event of the post store is an old event or
that clamped event, the clamped event is present, a requested raw value of 0
is stored as `_minOutput = 1e-7`, and the clamp is strictly positive — so an
`exponentialRampToValueAtTime` event with value 0 is never recorded. -/
theorem C6_exponentialRamp_floor (s : ParamState) (v t : ℝ) (e : AutomationEvent)
    (he : e ∈ (Param.exponentialRampToValueAtTime s v t).events) :
    (e ∈ s.events ∨ e = .exponentialRampToValueAtTime t (max Param.minOutput v))
    ∧ (.exponentialRampToValueAtTime t (max Param.minOutput v)
        ∈ (Param.exponentialRampToValueAtTime s v t).events)
    ∧ (.exponentialRampToValueAtTime t Param.minOutput
        ∈ (Param.exponentialRampToValueAtTime s 0 t).events)
    ∧ 0 < Param.minOutput
    ∧ Param.minOutput = 1e-7 := by
  refine ⟨?_, ?_, ?_, by norm_num [Param.minOutput], rfl⟩
  · have hmem : e ∈ Timeline.add
        (.exponentialRampToValueAtTime t (max Param.minOutput v)) s.events := he
    rcases Timeline.mem_add.mp hmem with h | h
    · exact Or.inr h
    · exact Or.inl h
  · exact Timeline.mem_add.mpr (Or.inl rfl)
  · have hmax : max Param.minOutput (0 : ℝ) = Param.minOutput :=
      max_eq_left (by norm_num [Param.minOutput])
    show AutomationEvent.exponentialRampToValueAtTime t Param.minOutput
        ∈ Timeline.add (.exponentialRampToValueAtTime t (max Param.minOutput 0)) s.events
    rw [hmax]
    exact Timeline.mem_add.mpr (Or.inl rfl)

theorem C6_witness :
    ((AutomationEvent.exponentialRampToValueAtTime 1 (max Param.minOutput 0)) ∈ (initState 0 1).events
      ∨ AutomationEvent.exponentialRampToValueAtTime 1 (max Param.minOutput 0)
          = .exponentialRampToValueAtTime 1 (max Param.minOutput 0))
    ∧ (AutomationEvent.exponentialRampToValueAtTime 1 (max Param.minOutput 0)
        ∈ (Param.exponentialRampToValueAtTime (initState 0 1) 0 1).events)
    ∧ (AutomationEvent.exponentialRampToValueAtTime 1 Param.minOutput
        ∈ (Param.exponentialRampToValueAtTime (initState 0 1) 0 1).events)
    ∧ 0 < Param.minOutput
    ∧ Param.minOutput = 1e-7 :=
  C6_exponentialRamp_floor (initState 0 1) 0 1
    (.exponentialRampToValueAtTime 1 (max Param.minOutput 0))
    (by simp [Param.exponentialRampToValueAtTime, initState, Timeline.add])

/-- C7 (amended): every scheduling call whose value or time argument is
non-finite fails synchronously with the event store, sink log and all other
state unchanged (the `Except.error` carries the untouched state), and
`setTargetAtTime` likewise fails when its time constant is non-finite or not
strictly positive — with one exception forced by the counterexample:
`exponentialRampToValueAtTime` applies its `max(1e-7, value)` floor before the
finiteness check, so a value of `-Infinity` is clamped to 1e-7 and the call
succeeds; the failure guarantee for its value argument therefore holds only
for NaN and `+Infinity`. -/
theorem C7_invalid_arguments_fail (s : ParamState) (a a2 cOK bad bad2 c : JsNum)
    (hbad : bad.isFinite = false)
    (hbad2 : bad2.isFinite = false) (hbad2n : bad2 ≠ JsNum.negInf)
    (hc : c.isFinite = false ∨ c.toReal ≤ 0) :
    Param.setValueAtTimeJs s bad a = .error s
    ∧ Param.setValueAtTimeJs s a bad = .error s
    ∧ Param.linearRampToValueAtTimeJs s bad a = .error s
    ∧ Param.linearRampToValueAtTimeJs s a bad = .error s
    ∧ Param.exponentialRampToValueAtTimeJs s bad2 a = .error s
    ∧ Param.exponentialRampToValueAtTimeJs s a bad = .error s
    ∧ Param.setTargetAtTimeJs s bad a cOK = .error s
    ∧ Param.setTargetAtTimeJs s a bad cOK = .error s
    ∧ Param.setTargetAtTimeJs s a a2 c = .error s
    ∧ Param.cancelScheduledValuesJs s bad = .error s
    ∧ Param.cancelAndHoldAtTimeJs s bad = .error s := by
  have hb1 : bad.isFinite = true → False := fun h => by
    rw [hbad] at h
    exact Bool.noConfusion h
  have hb2 : (JsNum.jsMax (.fin Param.minOutput) bad2).isFinite = true → False := by
    cases bad2 with
    | fin x => simp [JsNum.isFinite] at hbad2
    | nan => intro h; simp [JsNum.jsMax, JsNum.isFinite] at h
    | posInf => intro h; simp [JsNum.jsMax, JsNum.isFinite] at h
    | negInf => exact absurd rfl hbad2n
  have hcbad : (c.isFinite = true ∧ 0 < c.toReal) → False := by
    rintro ⟨h1, h2⟩
    rcases hc with h | h
    · rw [h] at h1
      exact Bool.noConfusion h1
    · exact absurd h2 (not_lt.mpr h)
  refine ⟨?_, ?_, ?_, ?_, ?_, ?_, ?_, ?_, ?_, ?_, ?_⟩
  · simp only [Param.setValueAtTimeJs]
    rw [if_neg (by rintro ⟨h1, _⟩; exact hb1 h1)]
  · simp only [Param.setValueAtTimeJs]
    rw [if_neg (by rintro ⟨_, h2⟩; exact hb1 h2)]
  · simp only [Param.linearRampToValueAtTimeJs]
    rw [if_neg (by rintro ⟨h1, _⟩; exact hb1 h1)]
  · simp only [Param.linearRampToValueAtTimeJs]
    rw [if_neg (by rintro ⟨_, h2⟩; exact hb1 h2)]
  · simp only [Param.exponentialRampToValueAtTimeJs]
    rw [if_neg (by rintro ⟨h1, _⟩; exact hb2 h1)]
  · simp only [Param.exponentialRampToValueAtTimeJs]
    rw [if_neg (by rintro ⟨_, h2⟩; exact hb1 h2)]
  · simp only [Param.setTargetAtTimeJs]
    split
    · rw [if_neg (by rintro ⟨h1, _⟩; exact hb1 h1)]
    · rfl
  · simp only [Param.setTargetAtTimeJs]
    split
    · rw [if_neg (by rintro ⟨_, h2⟩; exact hb1 h2)]
    · rfl
  · simp only [Param.setTargetAtTimeJs]
    rw [if_neg hcbad]
  · simp only [Param.cancelScheduledValuesJs]
    rw [if_neg hb1]
  · simp only [Param.cancelAndHoldAtTimeJs]
    rw [if_neg hb1]

/-- C7 counterexample: `exponentialRampToValueAtTime` with converted value
`-Infinity` (non-finite) and finite time 1 does not fail: the source clamps
with `Math.max(1e-7, value)` before asserting finiteness, so the call succeeds
and records an event with value 1e-7 — refuting the claim that every
scheduling call with a non-finite converted value fails before any store or
sink mutation. -/
theorem C7_counterexample :
    Param.exponentialRampToValueAtTimeJs (initState 0 1) JsNum.negInf (JsNum.fin 1)
      = Except.ok
          { events := [.exponentialRampToValueAtTime 1 Param.minOutput],
            initialValue := 0, sampleTime := 1,
            sinkLog := [SinkCall.exponentialRampToValueAtTime Param.minOutput 1] }
    ∧ JsNum.negInf.isFinite = false := by
  constructor
  · simp [Param.exponentialRampToValueAtTimeJs, JsNum.jsMax, JsNum.isFinite, JsNum.toReal,
      initState, Timeline.add]
  · rfl

theorem C7_witness :
    Param.setValueAtTimeJs (initState 0 1) JsNum.nan (JsNum.fin 0) = .error (initState 0 1)
    ∧ Param.setValueAtTimeJs (initState 0 1) (JsNum.fin 0) JsNum.nan = .error (initState 0 1)
    ∧ Param.linearRampToValueAtTimeJs (initState 0 1) JsNum.nan (JsNum.fin 0)
        = .error (initState 0 1)
    ∧ Param.linearRampToValueAtTimeJs (initState 0 1) (JsNum.fin 0) JsNum.nan
        = .error (initState 0 1)
    ∧ Param.exponentialRampToValueAtTimeJs (initState 0 1) JsNum.posInf (JsNum.fin 0)
        = .error (initState 0 1)
    ∧ Param.exponentialRampToValueAtTimeJs (initState 0 1) (JsNum.fin 0) JsNum.nan
        = .error (initState 0 1)
    ∧ Param.setTargetAtTimeJs (initState 0 1) JsNum.nan (JsNum.fin 0) (JsNum.fin 1)
        = .error (initState 0 1)
    ∧ Param.setTargetAtTimeJs (initState 0 1) (JsNum.fin 0) JsNum.nan (JsNum.fin 1)
        = .error (initState 0 1)
    ∧ Param.setTargetAtTimeJs (initState 0 1) (JsNum.fin 0) (JsNum.fin 1) JsNum.nan
        = .error (initState 0 1)
    ∧ Param.cancelScheduledValuesJs (initState 0 1) JsNum.nan = .error (initState 0 1)
    ∧ Param.cancelAndHoldAtTimeJs (initState 0 1) JsNum.nan = .error (initState 0 1) :=
  C7_invalid_arguments_fail (initState 0 1) (JsNum.fin 0) (JsNum.fin 1) (JsNum.fin 1)
    JsNum.nan JsNum.posInf JsNum.nan rfl rfl (by simp) (Or.inl rfl)

/-- Folding the per-sample linear-ramp step of `setValueCurveAtTime` over
indices whose scheduled times are non-decreasing and not earlier than every
event already stored appends one `linearRampToValueAtTime` event per index. -/
theorem Param.foldl_linearRamps (f g : ℕ → ℝ) :
    ∀ (l : List ℕ) (st : ParamState),
      (∀ x ∈ st.events, ∀ i ∈ l, x.time ≤ g i) →
      l.Pairwise (fun i j => g i ≤ g j) →
      (l.foldl (fun st2 i => Param.linearRampToValueAtTime st2 (f i) (g i)) st).events
        = st.events ++ l.map (fun i => .linearRampToValueAtTime (g i) (f i)) := by
  intro l
  induction l with
  | nil => intro st _ _; simp
  | cons i rest ih =>
      intro st hb hp
      rw [List.pairwise_cons] at hp
      obtain ⟨hij, hrest⟩ := hp
      simp only [List.foldl_cons, List.map_cons]
      have hstep : (Param.linearRampToValueAtTime st (f i) (g i)).events
          = st.events ++ [.linearRampToValueAtTime (g i) (f i)] :=
        Timeline.add_of_le (fun x hx => by
          simpa [AutomationEvent.time] using hb x hx i (by simp))
      have hb2 : ∀ x ∈ (Param.linearRampToValueAtTime st (f i) (g i)).events,
          ∀ j ∈ rest, x.time ≤ g j := by
        intro x hx j hj
        rw [hstep] at hx
        rcases List.mem_append.mp hx with h | h
        · exact hb x h j (by simp [hj])
        · simp only [List.mem_singleton] at h
          subst h
          simpa [AutomationEvent.time] using hij j hj
      rw [ih _ hb2 hrest, hstep, List.append_assoc]
      simp

/-- C8: for a list of at least two samples and a non-negative duration,
`setValueCurveAtTime(values, startTime, duration, scaling)` records exactly
one `setValueAtTime` at `startTime` with value `values[0] * scaling` followed
by one `linearRampToValueAtTime` per subsequent sample `i` at
`startTime + i * (duration / (length - 1))` with value `values[i] * scaling`;
the concrete conjuncts check the scenario `setValueCurveAtTime([0,1,0], 0, 2)`:
events at times 0, 1, 2 with values 0, 1, 0, and reconstructed values 1/2 at
both query times 1/2 and 3/2. -/
theorem C8_setValueCurve (iv stt startTime duration scaling : ℝ) (values : List ℝ)
    (hlen : 2 ≤ values.length) (hdur : 0 ≤ duration) :
    (Param.setValueCurveAtTime (initState iv stt) values startTime duration scaling).events
      = .setValueAtTime startTime (values.getD 0 0 * scaling)
          :: ((List.range values.length).drop 1).map (fun i =>
                .linearRampToValueAtTime
                  (startTime + i * (duration / ((values.length : ℝ) - 1)))
                  (values.getD i 0 * scaling))
    ∧ (Param.setValueCurveAtTime (initState 0 1) [0, 1, 0] 0 2 1).events
        = [.setValueAtTime 0 0, .linearRampToValueAtTime 1 1, .linearRampToValueAtTime 2 0]
    ∧ Param.getValueAtTime (Param.setValueCurveAtTime (initState 0 1) [0, 1, 0] 0 2 1) (1 / 2)
        = 1 / 2
    ∧ Param.getValueAtTime (Param.setValueCurveAtTime (initState 0 1) [0, 1, 0] 0 2 1) (3 / 2)
        = 1 / 2 := by
  have hconc : (Param.setValueCurveAtTime (initState 0 1) [0, 1, 0] 0 2 1).events
      = [.setValueAtTime 0 0, .linearRampToValueAtTime 1 1, .linearRampToValueAtTime 2 0] := by
    rw [Param.setValueCurveAtTime,
      show ((List.range (List.length ([0, 1, 0] : List ℝ))).drop 1) = [1, 2] from rfl]
    norm_num [Param.linearRampToValueAtTime, Param.setValueAtTime, initState, Timeline.add,
      AutomationEvent.time, List.getD]
  refine ⟨?_, hconc, ?_, ?_⟩
  · have hseg : 0 ≤ duration / ((values.length : ℝ) - 1) := by
      apply div_nonneg hdur
      have h2 : (2 : ℝ) ≤ (values.length : ℝ) := by exact_mod_cast hlen
      linarith
    rw [Param.setValueCurveAtTime]
    rw [Param.foldl_linearRamps (fun i => values.getD i 0 * scaling)
        (fun i => startTime + i * (duration / ((values.length : ℝ) - 1)))
        ((List.range values.length).drop 1)
        (Param.setValueAtTime (initState iv stt) (values.getD 0 0 * scaling) startTime)
        ?_ ?_]
    · rw [show (Param.setValueAtTime (initState iv stt) (values.getD 0 0 * scaling)
            startTime).events
          = [.setValueAtTime startTime (values.getD 0 0 * scaling)] by
        simp [Param.setValueAtTime, initState, Timeline.add]]
      simp
    · intro x hx j hj
      have hxe : x = .setValueAtTime startTime (values.getD 0 0 * scaling) := by
        simpa [Param.setValueAtTime, initState, Timeline.add] using hx
      subst hxe
      have hge : 0 ≤ (j : ℝ) * (duration / ((values.length : ℝ) - 1)) :=
        mul_nonneg (Nat.cast_nonneg j) hseg
      simp only [AutomationEvent.time]
      linarith
    · have h1 : ((List.range values.length).drop 1).Pairwise (· < ·) :=
        List.Pairwise.sublist (List.drop_sublist 1 (List.range values.length))
          (List.pairwise_lt_range values.length)
      refine h1.imp ?_
      intro i j hij
      have hmul : (i : ℝ) * (duration / ((values.length : ℝ) - 1))
          ≤ (j : ℝ) * (duration / ((values.length : ℝ) - 1)) := by
        apply mul_le_mul_of_nonneg_right _ hseg
        exact_mod_cast hij.le
      linarith
  · rw [Param.getValueAtTime, hconc, max_eq_left (by norm_num : (0 : ℝ) ≤ 1 / 2)]
    rw [show Timeline.get (1 / 2) [AutomationEvent.setValueAtTime 0 0,
          .linearRampToValueAtTime 1 1, .linearRampToValueAtTime 2 0]
        = some (.setValueAtTime 0 0) by
      norm_num [Timeline.get, AutomationEvent.time]]
    rw [show Timeline.getAfter (1 / 2) [AutomationEvent.setValueAtTime 0 0,
          .linearRampToValueAtTime 1 1, .linearRampToValueAtTime 2 0]
        = some (.linearRampToValueAtTime 1 1) by
      norm_num [Timeline.getAfter, AutomationEvent.time]]
    simp only [Param.gvBranch, Param.rampStartValue, Param.linearInterpolate,
      AutomationEvent.time, AutomationEvent.value]
    norm_num
  · rw [Param.getValueAtTime, hconc, max_eq_left (by norm_num : (0 : ℝ) ≤ 3 / 2)]
    rw [show Timeline.get (3 / 2) [AutomationEvent.setValueAtTime 0 0,
          .linearRampToValueAtTime 1 1, .linearRampToValueAtTime 2 0]
        = some (.linearRampToValueAtTime 1 1) by
      norm_num [Timeline.get, AutomationEvent.time]]
    rw [show Timeline.getAfter (3 / 2) [AutomationEvent.setValueAtTime 0 0,
          .linearRampToValueAtTime 1 1, .linearRampToValueAtTime 2 0]
        = some (.linearRampToValueAtTime 2 0) by
      norm_num [Timeline.getAfter, AutomationEvent.time]]
    simp only [Param.gvBranch, Param.rampStartValue, Param.linearInterpolate,
      AutomationEvent.time, AutomationEvent.value]
    norm_num

theorem C8_witness :
    (Param.setValueCurveAtTime (initState 0 1) [0, 1, 0] 0 2 1).events
      = .setValueAtTime 0 (([0, 1, 0] : List ℝ).getD 0 0 * 1)
          :: ((List.range ([0, 1, 0] : List ℝ).length).drop 1).map (fun i =>
                .linearRampToValueAtTime
                  (0 + i * (2 / ((([0, 1, 0] : List ℝ).length : ℝ) - 1)))
                  (([0, 1, 0] : List ℝ).getD i 0 * 1))
    ∧ (Param.setValueCurveAtTime (initState 0 1) [0, 1, 0] 0 2 1).events
        = [.setValueAtTime 0 0, .linearRampToValueAtTime 1 1, .linearRampToValueAtTime 2 0]
    ∧ Param.getValueAtTime (Param.setValueCurveAtTime (initState 0 1) [0, 1, 0] 0 2 1) (1 / 2)
        = 1 / 2
    ∧ Param.getValueAtTime (Param.setValueCurveAtTime (initState 0 1) [0, 1, 0] 0 2 1) (3 / 2)
        = 1 / 2 :=
  C8_setValueCurve 0 1 0 2 1 [0, 1, 0] (by norm_num) (by norm_num)

/-- C9: `exponentialApproachValueAtTime(value, time, rampTime)` is exactly the
composition of `setTargetAtTime` at `time` with time constant
`log(rampTime + 1) / log(200)`, `cancelAndHoldAtTime` at
`time + 0.9 * rampTime`, and a final `linearRampToValueAtTime` to `value` at
`time + rampTime` (first conjunct, definitional); consequently, on a
time-sorted schedule with no event after `time`, a non-negative `time` and a
positive `rampTime`, `getValueAtTime(time + rampTime)` equals `value`
exactly (second conjunct). -/
theorem C9_exponentialApproachValue (s : ParamState) (value time rampTime : ℝ)
    (hs : TimeSorted s.events) (hb : ∀ e ∈ s.events, e.time ≤ time)
    (ht : 0 ≤ time) (hr : 0 < rampTime) :
    Param.exponentialApproachValueAtTime s value time rampTime
      = Param.linearRampToValueAtTime
          (Param.cancelAndHoldAtTime
            (Param.setTargetAtTime s value time (Real.log (rampTime + 1) / Real.log 200))
            (time + rampTime * 0.9))
          value (time + rampTime)
    ∧ Param.getValueAtTime
        (Param.exponentialApproachValueAtTime s value time rampTime) (time + rampTime)
      = value := by
  refine ⟨rfl, ?_⟩
  have hs2ev : (Param.setTargetAtTime s value time
        (Real.log (rampTime + 1) / Real.log 200)).events
      = s.events ++ [.setTargetAtTime time value (Real.log (rampTime + 1) / Real.log 200)] :=
    Timeline.add_of_le (fun x hx => by simpa [AutomationEvent.time] using hb x hx)
  have hs2sorted : TimeSorted (Param.setTargetAtTime s value time
      (Real.log (rampTime + 1) / Real.log 200)).events := by
    rw [hs2ev]
    exact TimeSorted.append_singleton hs
      (fun x hx => by simpa [AutomationEvent.time] using hb x hx)
  have hshape := Param.cancelAndHold_shape
    (Param.setTargetAtTime s value time (Real.log (rampTime + 1) / Real.log 200))
    (time + rampTime * 0.9) hs2sorted
  have hcore := Param.cancelAndHoldCore_times
    (s := Param.setTargetAtTime s value time (Real.log (rampTime + 1) / Real.log 200))
    (t := time + rampTime * 0.9) hs2sorted
  have h9T : time + rampTime * 0.9 ≤ time + rampTime := by linarith
  have hs3le : ∀ x ∈ (Param.cancelAndHoldAtTime
      (Param.setTargetAtTime s value time (Real.log (rampTime + 1) / Real.log 200))
      (time + rampTime * 0.9)).events, x.time ≤ time + rampTime := by
    intro x hx
    rw [hshape] at hx
    rcases List.mem_append.mp hx with h | h
    · exact le_trans (hcore x h) h9T
    · simp only [List.mem_singleton] at h
      subst h
      simpa [AutomationEvent.time] using h9T
  have hfin : (Param.linearRampToValueAtTime
      (Param.cancelAndHoldAtTime
        (Param.setTargetAtTime s value time (Real.log (rampTime + 1) / Real.log 200))
        (time + rampTime * 0.9))
      value (time + rampTime)).events
      = (Param.cancelAndHoldAtTime
          (Param.setTargetAtTime s value time (Real.log (rampTime + 1) / Real.log 200))
          (time + rampTime * 0.9)).events
        ++ [.linearRampToValueAtTime (time + rampTime) value] :=
    Timeline.add_of_le (fun x hx => by
      simpa [AutomationEvent.time] using hs3le x hx)
  have hT0 : 0 ≤ time + rampTime := by linarith
  rw [Param.exponentialApproachValueAtTime, Param.getValueAtTime, max_eq_left hT0, hfin]
  rw [Timeline.get_append_last (by simp [AutomationEvent.time]) hs3le,
    Timeline.getAfter_none_of_le (fun x hx => by
      rcases List.mem_append.mp hx with h | h
      · exact hs3le x h
      · simp only [List.mem_singleton] at h
        subst h
        simp [AutomationEvent.time])]
  simp [Param.gvBranch, AutomationEvent.value]

theorem C9_witness :
    Param.exponentialApproachValueAtTime (initState 0 1) 2 0 1
      = Param.linearRampToValueAtTime
          (Param.cancelAndHoldAtTime
            (Param.setTargetAtTime (initState 0 1) 2 0 (Real.log (1 + 1) / Real.log 200))
            (0 + 1 * 0.9))
          2 (0 + 1)
    ∧ Param.getValueAtTime (Param.exponentialApproachValueAtTime (initState 0 1) 2 0 1) (0 + 1)
      = 2 :=
  C9_exponentialApproachValue (initState 0 1) 2 0 1 (by simp [initState, TimeSorted])
    (by simp [initState]) le_rfl (by norm_num)
